import Mathlib

/-!
Verification development for the Prompt-Reverse web application.

The application ingests source code (pasted, uploaded, fetched from raw URLs or a
GitHub repository), requests a structured analysis from a generative-model service,
and renders the analysis through one of eight prompt templates.  This file gives a
shallow embedding of the data model and of the operations the specification talks
about — the repository importer (`src/components/CodeInput.tsx`), the blob builder
and the view-selection logic (`src/App.tsx`), and the service helpers
(`src/services/geminiService.ts`) — and proves or refutes the specified properties.

Network calls and other external effects are modelled by explicit oracle functions
passed as arguments; React state updates are modelled as a small state machine over
`AppState` with one event per completion handler.
-/

namespace PromptReverse

/-! ## JavaScript string primitives

Models of the JS string operations the source uses.  `toLowerCase` is modelled with
Lean's ASCII `Char.toLower`, and `trim` with Lean's `Char.isWhitespace`; both agree
with JavaScript on the ASCII inputs the application manipulates. -/

/-- Model of JavaScript `String.prototype.toLowerCase` (ASCII case folding). -/
def jsToLower (s : String) : String := String.mk (s.data.map Char.toLower)

/-- Model of `s.split(' ')[0]`: the longest prefix of `s` with no space. -/
def firstWord (s : String) : String := String.mk (s.data.takeWhile (fun c => c ≠ ' '))

/-- Model of `languageFramework.split(' ')[0]?.toLowerCase() || 'text'` from the
formatters in `src/App.tsx`. -/
def langOf (lf : String) : String :=
  let w := jsToLower (firstWord lf)
  if w = "" then "text" else w

/-- Model of JavaScript `String.prototype.trim`. -/
def jsTrim (s : String) : String :=
  String.mk (((s.data.dropWhile Char.isWhitespace).reverse.dropWhile Char.isWhitespace).reverse)

/-- Model of JavaScript `Array.prototype.join` on an array of strings. -/
def jsJoin (sep : String) : List String → String
  | [] => ""
  | [x] => x
  | x :: xs => x ++ sep ++ jsJoin sep xs

/-! ## Data model (`src/types.ts`) -/

/-- One collected source file (`UploadedFile` in `src/types.ts`). -/
structure UploadedFile where
  path : String
  content : String
deriving DecidableEq, Repr

/-- One citation pair extracted by search grounding
(`groundingLinks` entries in `src/types.ts`). -/
structure GroundingLink where
  title : String
  url : String
deriving DecidableEq, Repr

/-- Structured analysis of the submitted code (`AnalysisResult` in `src/types.ts`). -/
structure AnalysisResult where
  role : String
  languageFramework : String
  mainObjective : String
  technicalPurpose : String
  keyFeatures : List String
  structureClasses : List String
  structureFunctions : List String
  dependencies : List String
  groundingLinks : Option (List GroundingLink) := none
deriving DecidableEq, Repr

/-- One complete unit of analysis + code + task (`GenerationContext` in `src/types.ts`). -/
structure GenerationContext where
  id : String
  analysis : AnalysisResult
  code : String
  task : String
  timestamp : Nat
  generatedLogoUrl : Option String := none
  generatedAudioUrl : Option String := none
  generatedVideoUrl : Option String := none
deriving DecidableEq, Repr

/-- The eight formatting styles (`PromptStyle` in `src/App.tsx`). -/
inductive PromptStyle where
  | technical | compact | concise | popular | friendly | lovable | descriptive | base44
deriving DecidableEq, Repr

/-! ## Prompt formatters (`src/App.tsx`, lines 14–319)

Each `format*Prompt` definition transcribes the corresponding template literal from
the source, with `${...}` interpolation written as string concatenation. -/

/-- Transcription of `formatTechnicalPrompt` from `src/App.tsx`. -/
def formatTechnicalPrompt (analysis : AnalysisResult) (originalCode task : String) : String :=
  let language := langOf analysis.languageFramework
  let p1 :=
    "Olá! Por favor, comporte-se como um engenheiro de software sênior especialista.\n\n" ++
    "Analise o seguinte projeto de código, cuja referência completa está no final.\n\n" ++
    "**Resumo da Análise:**\n\n" ++
    "- **Linguagem/Framework Principal:** " ++ analysis.languageFramework ++ "\n" ++
    "- **Objetivo Principal:** " ++ analysis.mainObjective ++ "\n" ++
    "- **Propósito Técnico:** " ++ analysis.technicalPurpose ++ "\n\n" ++
    "**Funcionalidades Chave:**\n" ++
    jsJoin "\n" (analysis.keyFeatures.map (fun f => "- " ++ f)) ++ "\n\n" ++
    "**Estrutura do Código:**\n" ++
    "- **Classes/Componentes Principais:**\n" ++
    (if analysis.structureClasses.length > 0 then
      jsJoin "\n" (analysis.structureClasses.map (fun c => "  - " ++ c))
     else "  - Nenhuma identificada") ++ "\n" ++
    "- **Funções/Métodos Principais:**\n" ++
    (if analysis.structureFunctions.length > 0 then
      jsJoin "\n" (analysis.structureFunctions.map (fun f => "  - " ++ f))
     else "  - Nenhuma identificada") ++ "\n" ++
    "- **Dependências Críticas:**\n" ++
    (if analysis.dependencies.length > 0 then
      jsJoin "\n" (analysis.dependencies.map (fun d => "  - " ++ d))
     else "  - Nenhuma identificada") ++ "\n\n" ++
    "**Código-Fonte de Referência:**\n```" ++ language ++ "\n" ++ originalCode ++ "\n```\n"
  let p2 :=
    match analysis.groundingLinks with
    | some links =>
      if links.length > 0 then
        p1 ++ "\n**Referências Externas (Documentação):**\n" ++
          jsJoin "\n" (links.map (fun l => "- [" ++ l.title ++ "](" ++ l.url ++ ")")) ++ "\n"
      else p1
    | none => p1
  let p3 :=
    if task ≠ "" then
      p2 ++ "\n**Tarefa Solicitada:**\nCom base na análise e no código fornecido, " ++
        "execute a seguinte tarefa: **" ++ task ++ "**"
    else p2
  jsTrim p3

/-- Transcription of `formatCompactPrompt` from `src/App.tsx`. -/
def formatCompactPrompt (analysis : AnalysisResult) (originalCode task : String) : String :=
  let language := langOf analysis.languageFramework
  let p1 :=
    "Atue como um engenheiro de software sênior. Analise o código de forma direta e objetiva.\n\n" ++
    "**Contexto Essencial:**\n" ++
    "- **Linguagem/Framework:** " ++ analysis.languageFramework ++ "\n" ++
    "- **Objetivo Principal:** " ++ analysis.mainObjective ++ "\n\n" ++
    "**Funcionalidades Chave:**\n" ++
    jsJoin "\n" (analysis.keyFeatures.map (fun f => "- " ++ f)) ++ "\n\n" ++
    "**Código de Referência:**\n```" ++ language ++ "\n" ++ originalCode ++ "\n```\n"
  let p2 := if task ≠ "" then p1 ++ "\n**Tarefa:**\n" ++ task else p1
  jsTrim p2

/-- Transcription of `formatConcisePrompt` from `src/App.tsx`. -/
def formatConcisePrompt (analysis : AnalysisResult) (originalCode task : String) : String :=
  let language := langOf analysis.languageFramework
  let p1 :=
    "**Linguagem:** " ++ analysis.languageFramework ++ "\n" ++
    "**Objetivo:** " ++ analysis.mainObjective ++ "\n\n" ++
    "**Funcionalidades:**\n" ++
    jsJoin "\n" (analysis.keyFeatures.map (fun f => "- " ++ f)) ++ "\n\n" ++
    "**Código:**\n```" ++ language ++ "\n" ++ originalCode ++ "\n```\n"
  let p2 := if task ≠ "" then p1 ++ "\n**Tarefa:** " ++ task else p1
  jsTrim p2

/-- Transcription of `formatPopularPrompt` from `src/App.tsx`. -/
def formatPopularPrompt (analysis : AnalysisResult) (originalCode task : String) : String :=
  let language := langOf analysis.languageFramework
  let p1 :=
    "Me explica de um jeito fácil o que esse código em **" ++ analysis.languageFramework ++
    "** faz.\n\n" ++
    "**O que ele faz, em poucas palavras:**\n" ++ analysis.mainObjective ++ "\n\n" ++
    "**Principais funcionalidades (o que ele consegue fazer):**\n" ++
    jsJoin "\n" (analysis.keyFeatures.map (fun f => "- " ++ f)) ++ "\n\n" ++
    "Para referência, aqui está o código completo:\n```" ++ language ++ "\n" ++
    originalCode ++ "\n```\n"
  let p2 :=
    if task ≠ "" then
      p1 ++ "\nAgora, com base no que você entendeu, me ajude com isso:\n**" ++ task ++ "**"
    else p1
  jsTrim p2

/-- Transcription of `formatFriendlyPrompt` from `src/App.tsx`. -/
def formatFriendlyPrompt (analysis : AnalysisResult) (originalCode task : String) : String :=
  let language := langOf analysis.languageFramework
  let p1 :=
    "👋 Oi! Gostaria de conversar sobre este código em **" ++ analysis.languageFramework ++
    "**.\n\n" ++
    "🌟 **O que ele é:**\n" ++ analysis.mainObjective ++ "\n\n" ++
    "✨ **Funcionalidades legais:**\n" ++
    jsJoin "\n" (analysis.keyFeatures.map (fun f => "🔹 " ++ f)) ++ "\n\n" ++
    "📂 **Aqui está o código original:**\n```" ++ language ++ "\n" ++ originalCode ++ "\n```\n"
  let p2 :=
    if task ≠ "" then p1 ++ "\n🤝 **Poderia me ajudar com isso?**\n" ++ task
    else p1 ++ "\nMe diga o que acha dele! 😊"
  jsTrim p2

/-- Transcription of `formatDescriptivePrompt` from `src/App.tsx`. -/
def formatDescriptivePrompt (analysis : AnalysisResult) (originalCode task : String) : String :=
  let p1 :=
    "Você é um especialista em tecnologia focado em explicar soluções para pessoas não técnicas.\n" ++
    "Por favor, descreva este software focando puramente no valor que ele entrega e na " ++
    "experiência do usuário, ignorando detalhes de código.\n\n" ++
    "**Resumo do Produto:**\n" ++ analysis.mainObjective ++ "\n\n" ++
    "**O que eu consigo fazer com isso (Funcionalidades):**\n" ++
    jsJoin "\n" (analysis.keyFeatures.map (fun f => "- " ++ f)) ++ "\n\n" ++
    "**Contexto:**\n" ++
    "Eu tenho os arquivos deste projeto, mas não sei programar. Quero entender para que " ++
    "ele serve e como ele facilita a vida do usuário, em linguagem simples e direta.\n\n" ++
    "**Arquivo de Referência (Código):**\n```text\n" ++ originalCode ++ "\n```\n"
  let p2 := if task ≠ "" then p1 ++ "\n**Gostaria de ajuda com:**\n" ++ task else p1
  jsTrim p2

/-- Transcription of `formatLovablePrompt` from `src/App.tsx`. -/
def formatLovablePrompt (analysis : AnalysisResult) (originalCode task : String) : String :=
  let language := langOf analysis.languageFramework
  let p1 :=
    "✨ **Olá! Vamos transformar código em algo incrível!** 🚀\n\n" ++
    "Atue como um \"CreativeAI Companion\" - um parceiro de codificação amigável, " ++
    "entusiasta e altamente qualificado.\n\n" ++
    "**🎯 Visão Geral:**\n" ++ analysis.mainObjective ++ "\n\n" ++
    "**🧠 A Lógica Brilhante:**\n" ++ analysis.technicalPurpose ++ "\n\n" ++
    "**💻 Tech Stack:** " ++ analysis.languageFramework ++ "\n\n" ++
    "**🌟 Funcionalidades Mágicas:**\n" ++
    jsJoin "\n" (analysis.keyFeatures.map (fun f => "✨ " ++ f)) ++ "\n\n" ++
    "**🏗️ Estrutura:**\n" ++
    (if analysis.structureClasses.length > 0 then
      jsJoin "\n" (analysis.structureClasses.map (fun c => "🧩 " ++ c)) else "") ++ "\n" ++
    (if analysis.structureFunctions.length > 0 then
      jsJoin "\n" (analysis.structureFunctions.map (fun f => "⚡ " ++ f)) else "") ++ "\n" ++
    (if analysis.structureClasses.length = 0 ∧ analysis.structureFunctions.length = 0 then
      "🧱 Estrutura simplificada" else "") ++ "\n\n" ++
    "**📦 Dependências:**\n" ++
    (if analysis.dependencies.length > 0 then
      jsJoin "\n" (analysis.dependencies.map (fun d => "📦 " ++ d))
     else "📦 Sem dependências extras") ++ "\n\n" ++
    "**📜 Código-Fonte:**\n```" ++ language ++ "\n" ++ originalCode ++ "\n```\n"
  let p2 := if task ≠ "" then p1 ++ "\n**🌈 Sua Missão Criativa:**\n" ++ task else p1
  jsTrim p2

/-- Transcription of `formatBase44Prompt` from `src/App.tsx`. -/
def formatBase44Prompt (analysis : AnalysisResult) (originalCode task : String) : String :=
  let language := langOf analysis.languageFramework
  let p1 :=
    "@@BEGIN_PROMPT_TRANSMISSION\n" ++
    "@@FORMAT: Base44 💖\n" ++
    "@@RECIPIENT: CreativeAI_Companion\n" ++
    "@@CONSTRAINTS: Mantenha a vibe positiva e amigável! Limite a resposta a +/- 50 " ++
    "linhas para leitura rápida.\n\n" ++
    "@@CONTEXT_HEADER: ✨ Olá! Encontrei algo incrível para construirmos juntos! 🚀\n\n" ++
    "@@OBJECTIVE: 🎯 **O que é isso?**\n" ++ analysis.mainObjective ++ "\n\n" ++
    "@@DEEP_DIVE: 🧠 **A Lógica Brilhante:**\n" ++ analysis.technicalPurpose ++ "\n\n" ++
    "@@CORE_TECH: 💻 **Feito com:** " ++ analysis.languageFramework ++ "\n\n" ++
    "@@SUPERPOWERS: 🌟 **Funcionalidades Mágicas:**\n" ++
    jsJoin "\n" (analysis.keyFeatures.map (fun f => "✨ " ++ f)) ++ "\n\n" ++
    "@@BLUEPRINT: 🏗️ **A Estrutura & Peças:**\n" ++
    (if analysis.structureClasses.length > 0 then
      jsJoin "\n" (analysis.structureClasses.map (fun c => "🧩 " ++ c)) else "") ++ "\n" ++
    (if analysis.structureFunctions.length > 0 then
      jsJoin "\n" (analysis.structureFunctions.map (fun f => "⚡ " ++ f)) else "") ++ "\n" ++
    (if analysis.structureClasses.length = 0 ∧ analysis.structureFunctions.length = 0 then
      "🧱 Estrutura simplificada" else "") ++ "\n\n" ++
    "@@SECRET_SAUCE: 🧂 **Ingredientes Especiais (Deps):**\n" ++
    (if analysis.dependencies.length > 0 then
      jsJoin "\n" (analysis.dependencies.map (fun d => "📦 " ++ d))
     else "📦 Sem dependências extras") ++ "\n\n" ++
    "@@SOURCE_CODE: 📜 **O Pergaminho de Código:**\n```" ++ language ++ "\n" ++
    originalCode ++ "\n```\n"
  let p2 :=
    if task ≠ "" then
      p1 ++ "\n@@YOUR_MISSION: 🌈 **Sua Missão:**\nCom base em tudo isso, vamos criar " ++
        "mágica: **" ++ task ++ "**"
    else p1
  let p3 := p2 ++ "\n\n@@END_PROMPT_TRANSMISSION 🚀"
  jsTrim p3

/-- The `formatters` dispatch table inside `displayedPrompt` (`src/App.tsx`, lines 354–365). -/
def formatPrompt : PromptStyle → AnalysisResult → String → String → String
  | .technical => formatTechnicalPrompt
  | .compact => formatCompactPrompt
  | .concise => formatConcisePrompt
  | .popular => formatPopularPrompt
  | .friendly => formatFriendlyPrompt
  | .lovable => formatLovablePrompt
  | .descriptive => formatDescriptivePrompt
  | .base44 => formatBase44Prompt

/-! ## Application state machine (`src/App.tsx`)

React state is modelled by `AppState`; each completion handler of `App` becomes one
`AppEvent`.  The `useEffect(() => setRefinedPrompt(null), [promptStyle, currentContext])`
hook is folded into the events: any event that changes `promptStyle` or
`currentContext` also clears `refinedPrompt` (React re-runs the effect exactly when
one of the two dependencies changes; setting a dependency to its current value bails
out and leaves the override in place). -/

/-- The media kinds handled by `updateContextWithMedia` in `src/App.tsx`. -/
inductive MediaType where
  | logo | audio | video
deriving DecidableEq, Repr

/-- Projection of the media-URL field selected by a `MediaType`. -/
def mediaField : MediaType → GenerationContext → Option String
  | .logo, c => c.generatedLogoUrl
  | .audio, c => c.generatedAudioUrl
  | .video, c => c.generatedVideoUrl

/-- Field update performed on the copied context inside `updateContextWithMedia`. -/
def applyMedia : MediaType → GenerationContext → String → GenerationContext
  | .logo, c, url => { c with generatedLogoUrl := some url }
  | .audio, c, url => { c with generatedAudioUrl := some url }
  | .video, c, url => { c with generatedVideoUrl := some url }

/-- The pieces of React state in `App` that the specified behaviour depends on. -/
structure AppState where
  uploadedFiles : List UploadedFile
  additionalTask : String
  history : List GenerationContext
  currentContext : Option GenerationContext
  promptStyle : PromptStyle
  refinedPrompt : Option String
deriving DecidableEq, Repr

/-- Transcription of the `displayedPrompt` memo from `src/App.tsx` (lines 348–367).
JavaScript truthiness makes an empty-string override fall through to the formatter. -/
def displayedPrompt (st : AppState) : String :=
  match st.refinedPrompt with
  | some r =>
    if r = "" then
      match st.currentContext with
      | none => ""
      | some c => formatPrompt st.promptStyle c.analysis c.code c.task
    else r
  | none =>
    match st.currentContext with
    | none => ""
    | some c => formatPrompt st.promptStyle c.analysis c.code c.task

/-- State transition of `updateContextWithMedia` (`src/App.tsx`, lines 432–441):
copy the current context, set the one media field, republish it as current and
rewrite the matching history entry in place.  Setting a freshly copied object as
current re-runs the clearing effect, so the refinement override is dropped. -/
def updateContextWithMedia (st : AppState) (t : MediaType) (url : String) : AppState :=
  match st.currentContext with
  | none => st
  | some c =>
    let u := applyMedia t c url
    { st with currentContext := some u,
              history := st.history.map (fun h => if h.id = u.id then u else h),
              refinedPrompt := none }

/-- Completion events of the `App` handlers.  `refineSuccess` carries the text the
refinement request returned; `analyzeSuccess` carries the freshly built context. -/
inductive AppEvent where
  | setStyle (s : PromptStyle)
  | selectHistory (c : GenerationContext)
  | refineSuccess (t : String)
  | refineFailure
  | revertRefinement
  | analyzeSuccess (c : GenerationContext)
  | analyzeFailure
  | mediaSuccess (t : MediaType) (url : String)
  | mediaFailure

/-- One step of the `App` state machine.  `setStyle` and `selectHistory` bail out when
the value is unchanged (React skips the update and the clearing effect); otherwise
they clear the refinement override, mirroring the `useEffect` hook.  `refineSuccess`
keeps the guard `if (!displayedPrompt || !instructions) return` of `handleRefinePrompt`;
the failure events change nothing beyond UI messages, which are not modelled. -/
def applyEvent (st : AppState) : AppEvent → AppState
  | .setStyle s =>
    if s = st.promptStyle then st
    else { st with promptStyle := s, refinedPrompt := none }
  | .selectHistory c =>
    if st.currentContext = some c then st
    else { st with currentContext := some c, refinedPrompt := none }
  | .refineSuccess t =>
    if displayedPrompt st = "" then st else { st with refinedPrompt := some t }
  | .refineFailure => st
  | .revertRefinement => { st with refinedPrompt := none }
  | .analyzeSuccess c =>
    { st with currentContext := some c, history := c :: st.history, refinedPrompt := none }
  | .analyzeFailure => st
  | .mediaSuccess t url => updateContextWithMedia st t url
  | .mediaFailure => st

/-! ## The concatenated code blob (`src/App.tsx`, lines 340–342) -/

/-- Transcription of the `combinedCode` memo:
`uploadedFiles.map(file => `// FILE: ${file.path}\n\n${file.content}`).join('\n\n---\n\n')`. -/
def combinedCode (files : List UploadedFile) : String :=
  jsJoin "\n\n---\n\n" (files.map (fun file => "// FILE: " ++ file.path ++ "\n\n" ++ file.content))

/-- The path-marker prefix of each blob chunk, as a character list. -/
def markerL : List Char := "// FILE: ".data

/-- The chunk separator of the blob, as a character list. -/
def sepL : List Char := "\n\n---\n\n".data

/-- Character list of one blob chunk for a file. -/
def chunkL (f : UploadedFile) : List Char :=
  markerL ++ f.path.data ++ ('\n' :: '\n' :: f.content.data)

/-- Splitter on a fixed non-empty separator `c0 :: cs`, scanning left to right and
cutting at each leftmost occurrence.  `fuel` bounds the recursion; it is always
called with `fuel ≥` the length of the scanned list, so the fuel-exhausted branch is
never reached on the intended inputs. -/
def splitOnFuel (c0 : Char) (cs : List Char) : Nat → List Char → List Char → List (List Char)
  | 0, s, acc => [acc.reverse ++ s]
  | _ + 1, [], acc => [acc.reverse]
  | fuel + 1, x :: xs, acc =>
    if (c0 :: cs).isPrefixOf (x :: xs) then
      acc.reverse :: splitOnFuel c0 cs fuel (xs.drop cs.length) []
    else
      splitOnFuel c0 cs fuel xs (x :: acc)

/-- Split a character list at every occurrence of a separator (leftmost-first). -/
def splitSep (sep s : List Char) : List (List Char) :=
  match sep with
  | [] => [s]
  | c :: cs => splitOnFuel c cs s.length s []

/-- Locate the first occurrence of `"\n\n"` and split there, dropping the two
newlines: this is how a chunk's path is separated from its content. -/
def findNl2 : List Char → Option (List Char × List Char)
  | [] => none
  | [_] => none
  | a :: b :: rest =>
    if a = '\n' ∧ b = '\n' then some ([], rest)
    else (findNl2 (b :: rest)).map (fun pq => (a :: pq.1, pq.2))

/-- Modelled from the spec: the repository has no blob splitter, but § 8 of the spec
requires that "reassembling by the marker must recover the original per-file
boundaries".  A chunk parses when it starts with the `// FILE: ` marker; its path is
everything up to the first blank line and its content everything after it. -/
def parseChunk (chunk : List Char) : Option UploadedFile :=
  if markerL.isPrefixOf chunk then
    match findNl2 (chunk.drop markerL.length) with
    | some pq => some ⟨String.mk pq.1, String.mk pq.2⟩
    | none => none
  else none

/-- Modelled from the spec: split the blob at the `'\n\n---\n\n'` separators and
parse each chunk back into an `UploadedFile`. -/
def splitBlob (s : String) : Option (List UploadedFile) :=
  (splitSep sepL s.data).mapM parseChunk

/-- Character-list counterpart of `jsJoin`. -/
def joinSep (sep : List Char) : List (List Char) → List Char
  | [] => []
  | [p] => p
  | p :: ps => p ++ sep ++ joinSep sep ps

/-- A chunk is good for a separator when no occurrence of the separator starts
strictly inside it, not even an occurrence spilling over into the separator that
follows the chunk in the blob. -/
def goodChunk (sep p : List Char) : Prop :=
  ∀ j, j < p.length → ¬ sep <+: ((p ++ sep).drop j)

/-- Conditions under which a file survives the blob round-trip: its path has no
newline (so the chunk parses back) and its chunk admits no stray separator
occurrence. -/
def safeFile (f : UploadedFile) : Prop :=
  '\n' ∉ f.path.data ∧ goodChunk sepL (chunkL f)

instance (sep p : List Char) : Decidable (goodChunk sep p) := by
  unfold goodChunk
  infer_instance

instance (f : UploadedFile) : Decidable (safeFile f) := by
  unfold safeFile
  infer_instance

/-! ## Base64 and UTF-8 (`base64ToUtf8` in `src/components/CodeInput.tsx`, lines 51–60)

`base64ToUtf8` is `atob` (base64 → byte string) followed by `TextDecoder().decode`
(UTF-8 bytes → string).  Bytes are modelled as `Nat` values below 256.  `atob`
implements forgiving base64: ASCII whitespace is stripped before decoding and a
malformed input throws — here, returns `none`.  `TextDecoder` is modelled on
well-formed input only: the model rejects (returns `none` for) malformed byte
sequences that the browser would decode to replacement characters. -/

/-- The 64-character base64 alphabet. -/
def b64Alphabet : List Char :=
  "ABCDEFGHIJKLMNOPQRSTUVWXYZabcdefghijklmnopqrstuvwxyz0123456789+/".data

/-- Character of a 6-bit value. -/
def b64Char (v : Nat) : Char := b64Alphabet.getD v 'A'

/-- Inverse table lookup: the 6-bit value of an alphabet character. -/
def b64Val (c : Char) : Option Nat := b64Alphabet.findIdx? (fun d => d = c)

/-- ASCII whitespace stripped by forgiving base64. -/
def isAsciiWs (c : Char) : Bool :=
  c = '\t' ∨ c = '\n' ∨ c = '\x0c' ∨ c = '\r' ∨ c = ' '

/-- Modelled from the spec (provider side, not repository code): standard padded
base64 encoding of a byte list, three bytes to four characters. -/
def b64EncodeN : List Nat → List Char
  | [] => []
  | [a] => [b64Char (a / 4), b64Char (a % 4 * 16), '=', '=']
  | [a, b] => [b64Char (a / 4), b64Char (a % 4 * 16 + b / 16), b64Char (b % 16 * 4), '=']
  | a :: b :: d :: rest =>
    b64Char (a / 4) :: b64Char (a % 4 * 16 + b / 16) ::
      b64Char (b % 16 * 4 + d / 64) :: b64Char (d % 64) ::
      b64EncodeN rest

/-- Decode groups of four base64 characters into bytes, honouring `'='` padding on
the final group; any other shape is malformed. -/
def b64DecodeN : List Char → Option (List Nat)
  | [] => some []
  | c1 :: c2 :: c3 :: c4 :: rest =>
    if c3 = '=' ∧ c4 = '=' ∧ rest = [] then
      match b64Val c1, b64Val c2 with
      | some v1, some v2 => some [v1 * 4 + v2 / 16]
      | _, _ => none
    else if c4 = '=' ∧ rest = [] then
      match b64Val c1, b64Val c2, b64Val c3 with
      | some v1, some v2, some v3 => some [v1 * 4 + v2 / 16, v2 % 16 * 16 + v3 / 4]
      | _, _, _ => none
    else
      match b64Val c1, b64Val c2, b64Val c3, b64Val c4 with
      | some v1, some v2, some v3, some v4 =>
        (b64DecodeN rest).map
          (fun tail => (v1 * 4 + v2 / 16) :: (v2 % 16 * 16 + v3 / 4) :: (v3 % 4 * 64 + v4) :: tail)
      | _, _, _, _ => none
  | _ => none

/-- Model of `atob`: strip ASCII whitespace (forgiving base64), then decode. -/
def jsAtob (s : List Char) : Option (List Nat) :=
  b64DecodeN (s.filter (fun c => !isAsciiWs c))

/-- UTF-8 encoding of one scalar value (model of the encoder the provider applies
before base64-encoding file contents). -/
def utf8EncodeCharN (c : Char) : List Nat :=
  let n := c.toNat
  if n < 0x80 then [n]
  else if n < 0x800 then [0xC0 + n / 64, 0x80 + n % 64]
  else if n < 0x10000 then [0xE0 + n / 4096, 0x80 + n / 64 % 64, 0x80 + n % 64]
  else [0xF0 + n / 0x40000, 0x80 + n / 4096 % 64, 0x80 + n / 64 % 64, 0x80 + n % 64]

/-- UTF-8 encoding of a string, as a byte list. -/
def utf8Encode (s : String) : List Nat := (s.data.map utf8EncodeCharN).flatten

/-- Decode one UTF-8 sequence whose lead byte is `b0` and whose following bytes
start `rest`: the scalar and the remaining bytes, or `none` when malformed.
Missing continuation bytes are read as `0`, which always fails the continuation
check, so a truncated sequence is rejected.  Stray continuation bytes, overlong
forms, surrogates and out-of-range scalars are rejected, exactly the sequences a
conformant encoder never produces. -/
def utf8Step (b0 : Nat) (rest : List Nat) : Option (Char × List Nat) :=
  let b1 := rest.getD 0 0
  let b2 := rest.getD 1 0
  let b3 := rest.getD 2 0
  if b0 < 0x80 then some (Char.ofNat b0, rest)
  else if b0 < 0xC2 then none
  else if b0 < 0xE0 then
    if 0x80 ≤ b1 ∧ b1 < 0xC0 then
      some (Char.ofNat ((b0 - 0xC0) * 64 + (b1 - 0x80)), rest.drop 1)
    else none
  else if b0 < 0xF0 then
    if (0x80 ≤ b1 ∧ b1 < 0xC0) ∧ (0x80 ≤ b2 ∧ b2 < 0xC0) then
      let n := (b0 - 0xE0) * 4096 + (b1 - 0x80) * 64 + (b2 - 0x80)
      if 0x800 ≤ n ∧ (n < 0xD800 ∨ 0xDFFF < n) then some (Char.ofNat n, rest.drop 2)
      else none
    else none
  else if b0 < 0xF5 then
    if (0x80 ≤ b1 ∧ b1 < 0xC0) ∧ (0x80 ≤ b2 ∧ b2 < 0xC0) ∧ (0x80 ≤ b3 ∧ b3 < 0xC0) then
      let n := (b0 - 0xF0) * 0x40000 + (b1 - 0x80) * 4096 + (b2 - 0x80) * 64 + (b3 - 0x80)
      if 0x10000 ≤ n ∧ n < 0x110000 then some (Char.ofNat n, rest.drop 3)
      else none
    else none
  else none

/-- Decode UTF-8 sequences one at a time; the fuel bounds the recursion and is
always at least the number of remaining bytes on the intended calls. -/
def utf8DecodeLoop : Nat → List Nat → Option (List Char)
  | _, [] => some []
  | 0, _ :: _ => none
  | fuel + 1, b0 :: rest =>
    match utf8Step b0 rest with
    | none => none
    | some cr => (utf8DecodeLoop fuel cr.2).map (fun cs => cr.1 :: cs)

/-- Strict UTF-8 decoder (model of `TextDecoder().decode` on well-formed input). -/
def utf8DecodeN (l : List Nat) : Option (List Char) := utf8DecodeLoop l.length l

/-- Transcription of `base64ToUtf8` from `src/components/CodeInput.tsx`:
`atob`, then UTF-8 decoding of the resulting bytes. -/
def base64ToUtf8 (s : String) : Option String :=
  ((jsAtob s.data).bind utf8DecodeN).map String.mk

/-! ## Repository importer (`handleFetchFromRepo` in `src/components/CodeInput.tsx`) -/

/-- The `BLOCKED_EXTENSIONS` set from `src/components/CodeInput.tsx`, lines 22–39. -/
def BLOCKED_EXTENSIONS : List String :=
  ["png", "jpg", "jpeg", "gif", "bmp", "svg", "webp", "ico", "tif", "tiff",
   "pdf", "doc", "docx", "xls", "xlsx", "ppt", "pptx", "odt", "ods", "odp",
   "zip", "rar", "7z", "tar", "gz", "bz2", "xz",
   "mp3", "wav", "ogg", "flac", "aac", "m4a",
   "mp4", "avi", "mov", "wmv", "mkv", "flv", "webm",
   "exe", "dll", "so", "dmg", "bin", "o", "a",
   "woff", "woff2", "ttf", "eot", "otf",
   "lock", "log", "DS_Store"]

/-- The 5 MiB size bound (`MAX_FILE_SIZE_BYTES`). -/
def MAX_FILE_SIZE_BYTES : Nat := 5 * 1024 * 1024

/-- Model of `path.split('.').pop()`: the segment after the last dot (the whole
name when there is no dot). -/
def lastDotSegment (path : String) : String :=
  String.mk ((path.data.splitOn '.').getLastD [])

/-- Transcription of `isBlockedExtension`: lowercase the final dot segment and test
membership; the empty extension is falsy, hence not blocked. -/
def isBlockedExtension (path : String) : Bool :=
  let extension := jsToLower (lastDotSegment path)
  if extension = "" then false else BLOCKED_EXTENSIONS.contains extension

/-- Model of the lockfile regex
`/(^|[\/\\])(package-lock\.json|yarn\.lock|pnpm-lock\.yaml)$/i`: the lowercased path
is one of the three names or ends with one of them preceded by a slash or backslash. -/
def isLockfilePath (path : String) : Bool :=
  let p := (jsToLower path).data
  ["package-lock.json", "yarn.lock", "pnpm-lock.yaml"].any (fun name =>
    p = name.data ∨ (('/' :: name.data).isSuffixOf p ∨ ('\\' :: name.data).isSuffixOf p))

/-- One entry of the GitHub recursive tree response. -/
structure TreeNode where
  type : String
  path : String
  url : String
deriving DecidableEq, Repr

/-- Transcription of the candidate-list construction (`src/components/CodeInput.tsx`,
lines 249–252): keep blobs with unblocked extensions, drop lockfiles, cap at 100. -/
def filesToFetch (tree : List TreeNode) : List TreeNode :=
  (((tree.filter (fun node => node.type = "blob" ∧ !isBlockedExtension node.path)).filter
    (fun node => !isLockfilePath node.path)).take 100)

/-- Outcome of one per-file blob request in the download loop: HTTP 403, any other
failed status, or a JSON blob carrying `size` and base64 `content`. -/
inductive FetchOutcome where
  | status403
  | failed
  | ok (size : Nat) (content : String)

/-- Errors surfaced by `handleFetchFromRepo`, one constructor per `throw` site. -/
inductive ImportError where
  | invalidUrl
  | unsupportedProvider
  | rateLimited
  | notFound
  | httpError (status : Nat)
  | decodeFailure
  | emptyImport
deriving DecidableEq, Repr

/-- A repository URL after platform URL parsing: the hostname and the raw
`pathname.split('/')` segments. -/
structure ParsedUrl where
  hostname : String
  pathSegments : List String
deriving DecidableEq, Repr

/-- Model of `s.replace(/\.git$/, '')`. -/
def stripDotGit (s : String) : String :=
  if ".git".data.isSuffixOf s.data then String.mk (s.data.take (s.data.length - 4)) else s

/-- Transcription of the URL-validation block of `handleFetchFromRepo`
(`src/components/CodeInput.tsx`, lines 195–213): only the hostnames `github.com` and
`www.github.com` are accepted; any other hostname throws the unsupported-provider
error before the path segments are even examined. -/
def parseRepoPath (u : ParsedUrl) : Except ImportError String :=
  if u.hostname ≠ "github.com" ∧ u.hostname ≠ "www.github.com" then
    .error .unsupportedProvider
  else
    match u.pathSegments.filter (fun p => p ≠ "") with
    | p0 :: p1 :: _ => .ok (stripDotGit (p0 ++ "/" ++ p1))
    | _ => .error .invalidUrl

/-- The sequential download loop (`src/components/CodeInput.tsx`, lines 254–281):
a 403 aborts with the rate-limit error, any other failed fetch is skipped, an
oversized blob is skipped, and a blob whose base64 content does not decode raises —
`atob` throws — which the surrounding catch turns into a failed import. -/
def fetchLoop (fetch : String → FetchOutcome) : List TreeNode → Except ImportError (List UploadedFile)
  | [] => .ok []
  | node :: rest =>
    match fetch node.url with
    | .status403 => .error .rateLimited
    | .failed => fetchLoop fetch rest
    | .ok size content =>
      if size > MAX_FILE_SIZE_BYTES then fetchLoop fetch rest
      else
        match base64ToUtf8 content with
        | none => .error .decodeFailure
        | some text =>
          match fetchLoop fetch rest with
          | .error e => .error e
          | .ok tail => .ok (⟨node.path, text⟩ :: tail)

/-- Network oracles for one repository import: the repo-metadata request (default
branch or an HTTP status), the tree request, and the per-file blob requests. -/
structure RepoEnv where
  repoInfo : Except Nat String
  tree : String → Except Nat (List TreeNode)
  fetchFile : String → FetchOutcome

/-- The whole `handleFetchFromRepo` pipeline (`src/components/CodeInput.tsx`,
lines 184–299): validate the URL, resolve the default branch (403 → rate-limited,
404 → not-found), list the tree (403 → rate-limited), download the candidates, and
fail with the empty-import error when nothing was retrieved. -/
def runImport (env : RepoEnv) (u : ParsedUrl) : Except ImportError (List UploadedFile) :=
  match parseRepoPath u with
  | .error e => .error e
  | .ok _repoPath =>
    match env.repoInfo with
    | .error 403 => .error .rateLimited
    | .error 404 => .error .notFound
    | .error n => .error (.httpError n)
    | .ok defaultBranch =>
      match env.tree defaultBranch with
      | .error 403 => .error .rateLimited
      | .error n => .error (.httpError n)
      | .ok treeData =>
        match fetchLoop env.fetchFile (filesToFetch treeData) with
        | .error e => .error e
        | .ok allFiles => if allFiles.isEmpty then .error .emptyImport else .ok allFiles

/-- The state effect of the import on the held file list: `setUploadedFiles` runs
only on success (`src/components/CodeInput.tsx`, lines 283–298), so a failed import
leaves the previous list untouched and a successful one replaces it wholesale. -/
def importAndSetFiles (env : RepoEnv) (u : ParsedUrl) (prevFiles : List UploadedFile) :
    List UploadedFile × Option ImportError :=
  match runImport env u with
  | .error e => (prevFiles, some e)
  | .ok files => (files, none)

/-! ## Search grounding (`researchContext` in `src/services/geminiService.ts`, lines 82–109) -/

/-- The `web` part of one grounding chunk; `uri` and `title` may be absent. -/
structure GroundingWeb where
  uri : Option String
  title : Option String
deriving DecidableEq, Repr

/-- One grounding chunk of the response metadata. -/
structure GroundingChunk where
  web : Option GroundingWeb
deriving DecidableEq, Repr

/-- The part of a grounding response `researchContext` reads:
`response.candidates?.[0]?.groundingMetadata?.groundingChunks`, flattened to an
optional chunk list. -/
structure GroundingResp where
  groundingChunks : Option (List GroundingChunk)
deriving DecidableEq, Repr

/-- The chunk filter `c.web?.uri && c.web?.title` (JavaScript truthiness: an absent
web object, an absent field or an empty string all fail the test). -/
def keepChunk (c : GroundingChunk) : Bool :=
  match c.web with
  | none => false
  | some w => w.uri.getD "" ≠ "" ∧ w.title.getD "" ≠ ""

/-- The map `c => ({ title: c.web.title, url: c.web.uri })` applied after the filter. -/
def chunkToLink (c : GroundingChunk) : GroundingLink :=
  match c.web with
  | none => ⟨"", ""⟩
  | some w => ⟨w.title.getD "", w.uri.getD ""⟩

/-- The search query built from at most the first five dependencies. -/
def researchQuery (dependencies : List String) : String :=
  "What are the latest official documentation links and purpose for these libraries: " ++
    jsJoin ", " (dependencies.take 5) ++ "?"

/-- Transcription of `researchContext`.  The network request is an oracle
`callModel`; the second component of the result instruments the embedding with the
list of queries actually issued, so that "no request is made" is statable.  The
try/catch around the request and the metadata extraction returns `[]` on any error. -/
def researchContext (dependencies : List String)
    (callModel : String → Except String GroundingResp) :
    List GroundingLink × List String :=
  if dependencies.length = 0 then ([], [])
  else
    let query := researchQuery dependencies
    match callModel query with
    | .error _ => ([], [query])
    | .ok response =>
      match response.groundingChunks with
      | none => ([], [query])
      | some chunks => ((chunks.filter keepChunk).map chunkToLink, [query])

/-! ## Video generation (`generateVideoPitch` in `src/services/geminiService.ts`,
lines 181–212)

The submitted job and its successive polls are modelled as a stream
`ops : Nat → VideoOp`: `ops 0` is the operation returned by `generateVideos` and
`ops (n+1)` the result of the n-th `getVideosOperation` poll. -/

/-- The observable part of one video operation object. -/
structure VideoOp where
  done : Bool
  uri : Option String
deriving DecidableEq, Repr

/-- The `while (!operation.done)` polling loop: starting at index `i`, return the
index of the first operation whose `done` flag is set, giving up when the fuel runs
out (the real loop would still be waiting). -/
def pollVideo (ops : Nat → VideoOp) : Nat → Nat → Option Nat
  | 0, _ => none
  | fuel + 1, i => if (ops i).done then some i else pollVideo ops fuel (i + 1)

/-- Transcription of `generateVideoPitch`: poll until `done`, read
`operation.response?.generatedVideos?.[0]?.video?.uri` (absent → throw, here `none`)
and append the API key as a query parameter. -/
def generateVideoPitch (ops : Nat → VideoOp) (apiKey : String) (fuel : Nat) : Option String :=
  match pollVideo ops fuel 0 with
  | none => none
  | some i =>
    match (ops i).uri with
    | none => none
    | some videoUri => some (videoUri ++ "&key=" ++ apiKey)

/-! ## Concrete sample inputs used by witnesses and counterexamples -/

/-- Small sample analysis used in concrete evaluations. -/
def sampleAnalysis : AnalysisResult :=
  { role := "r", languageFramework := "TS", mainObjective := "obj",
    technicalPurpose := "tech", keyFeatures := ["f1"], structureClasses := [],
    structureFunctions := [], dependencies := [], groundingLinks := none }

/-- Small sample context used in concrete evaluations. -/
def sampleContext : GenerationContext :=
  { id := "id1", analysis := sampleAnalysis, code := "code", task := "", timestamp := 0 }

/-- A second sample context with a different identity. -/
def sampleContext2 : GenerationContext :=
  { id := "id2", analysis := sampleAnalysis, code := "code2", task := "t2", timestamp := 1 }

/-- A sample application state holding a pending refinement override. -/
def sampleState : AppState :=
  { uploadedFiles := [], additionalTask := "", history := [sampleContext2, sampleContext],
    currentContext := some sampleContext, promptStyle := .technical,
    refinedPrompt := some "OVERRIDE" }

/-- A sample repository tree mixing a blocked executable, a directory, a lockfile
and one valid source file. -/
def sampleTree : List TreeNode :=
  [⟨"blob", "v.exe", "u0"⟩, ⟨"tree", "dir", "u2"⟩,
   ⟨"blob", "package-lock.json", "u3"⟩, ⟨"blob", "a.py", "u1"⟩]

/-- A sample per-file fetch oracle answering every URL with a one-byte blob whose
base64 content decodes to `"x"`. -/
def sampleFetch : String → FetchOutcome := fun _ => .ok 1 "eA=="

/-! ## Claim C1 — provider resolution by hostname -/

/-- Claim C1, counterexample: a well-formed `gitlab.com` (or `bitbucket.org`)
repository URL with two non-empty path segments is rejected as an unsupported
provider by the importer, contrary to the claim that it proceeds to resolution. -/
theorem parseRepoPath_gitlab_rejected :
    parseRepoPath ⟨"gitlab.com", ["", "owner", "repo"]⟩ =
      Except.error ImportError.unsupportedProvider ∧
    parseRepoPath ⟨"bitbucket.org", ["", "owner", "repo"]⟩ =
      Except.error ImportError.unsupportedProvider :=
  ⟨rfl, rfl⟩

/-- Claim C1, amended: the importer accepts exactly the hostnames `github.com` and
`www.github.com` (proceeding to provider resolution whenever the URL also has at
least two non-empty path segments), and every URL with any other hostname —
including `gitlab.com` and `bitbucket.org` — fails with the unsupported-provider
error. -/
theorem parseRepoPath_github_only (u : ParsedUrl) :
    (((u.hostname = "github.com" ∨ u.hostname = "www.github.com") ∧
        2 ≤ (u.pathSegments.filter (fun p => p ≠ "")).length) →
      ∃ repoPath, parseRepoPath u = .ok repoPath) ∧
    ((u.hostname ≠ "github.com" ∧ u.hostname ≠ "www.github.com") →
      parseRepoPath u = .error .unsupportedProvider) := by
  constructor
  · rintro ⟨hh, hlen⟩
    unfold parseRepoPath
    rw [if_neg (by rcases hh with h | h <;> simp [h])]
    cases hfl : u.pathSegments.filter (fun p => p ≠ "") with
    | nil => rw [hfl] at hlen; simp at hlen
    | cons p0 t =>
      cases t with
      | nil => rw [hfl] at hlen; simp at hlen
      | cons p1 t2 => exact ⟨_, rfl⟩
  · intro hh
    unfold parseRepoPath
    rw [if_pos hh]

/-- Witness for `parseRepoPath_github_only` at concrete URLs. -/
theorem parseRepoPath_github_only_witness :
    (∃ repoPath, parseRepoPath ⟨"github.com", ["", "owner", "repo"]⟩ = .ok repoPath) ∧
    parseRepoPath ⟨"example.com", ["", "owner", "repo"]⟩ =
      .error .unsupportedProvider :=
  ⟨(parseRepoPath_github_only ⟨"github.com", ["", "owner", "repo"]⟩).1 (by decide),
   (parseRepoPath_github_only ⟨"example.com", ["", "owner", "repo"]⟩).2 (by decide)⟩

/-! ## Claim C7 — best-effort search grounding -/

/-- Claim C7: `researchContext` never propagates an error — with an empty
dependency list it returns the empty list without issuing any request; with a
non-empty list it issues exactly one request whose query is built from at most the
first five dependencies; and when the request fails it returns the empty list
rather than throwing. -/
theorem researchContext_best_effort (dependencies : List String)
    (callModel : String → Except String GroundingResp) :
    (dependencies = [] → researchContext dependencies callModel = ([], [])) ∧
    (dependencies ≠ [] →
      (researchContext dependencies callModel).2 = [researchQuery dependencies]) ∧
    researchQuery dependencies = researchQuery (dependencies.take 5) ∧
    (∀ e, callModel (researchQuery dependencies) = .error e →
      (researchContext dependencies callModel).1 = []) := by
  refine ⟨?_, ?_, ?_, ?_⟩
  · intro h; subst h; rfl
  · intro h
    unfold researchContext
    rw [if_neg (by simpa using h)]
    cases hc : callModel (researchQuery dependencies) with
    | error e => simp [hc]
    | ok response => cases hr : response.groundingChunks <;> simp [hc, hr]
  · simp [researchQuery, List.take_take]
  · intro e he
    unfold researchContext
    by_cases h0 : dependencies.length = 0
    · rw [if_pos h0]
    · rw [if_neg h0]
      simp only [he]

/-- Witness for `researchContext_best_effort` at concrete inputs. -/
theorem researchContext_best_effort_witness :
    researchContext [] (fun _ => .error "net down") = ([], []) ∧
    (researchContext ["react"] (fun _ => .error "net down")).2 =
      [researchQuery ["react"]] ∧
    researchQuery ["react"] = researchQuery (["react"].take 5) ∧
    (researchContext ["react"] (fun _ => .error "net down")).1 = [] :=
  ⟨(researchContext_best_effort [] (fun _ => .error "net down")).1 rfl,
   (researchContext_best_effort ["react"] (fun _ => .error "net down")).2.1 (by decide),
   (researchContext_best_effort ["react"] (fun _ => .error "net down")).2.2.1,
   (researchContext_best_effort ["react"] (fun _ => .error "net down")).2.2.2 "net down" rfl⟩

/-! ## Claim C8 — video polling resolves only after completion -/

/-- Soundness of the polling loop: a returned index is at least the start index,
its operation is done, and every polled index before it was not done. -/
theorem pollVideo_sound (ops : Nat → VideoOp) :
    ∀ (fuel i0 i : Nat), pollVideo ops fuel i0 = some i →
      i0 ≤ i ∧ (ops i).done = true ∧ ∀ j, i0 ≤ j → j < i → (ops j).done = false := by
  intro fuel
  induction fuel with
  | zero => intro i0 i h; simp [pollVideo] at h
  | succ fuel ih =>
    intro i0 i h
    unfold pollVideo at h
    by_cases hd : (ops i0).done
    · rw [if_pos hd] at h
      obtain rfl : i0 = i := by simpa using h
      exact ⟨Nat.le_refl _, hd, fun j hj1 hj2 => absurd (Nat.lt_of_le_of_lt hj1 hj2) (Nat.lt_irrefl _)⟩
    · rw [if_neg hd] at h
      obtain ⟨hle, hdone, hbefore⟩ := ih (i0 + 1) i h
      refine ⟨Nat.le_trans (Nat.le_succ _) hle, hdone, fun j hj1 hj2 => ?_⟩
      rcases Nat.eq_or_lt_of_le hj1 with rfl | hj1
      · exact Bool.eq_false_iff.mpr hd
      · exact hbefore j hj1 hj2

/-- Claim C8: whenever `generateVideoPitch` returns a URL, the polled job stream
had a first index whose `done` flag is set (every earlier poll was not done) and
the returned URL is that operation's video URI with the API key appended as a
query parameter. -/
theorem generateVideoPitch_after_done (ops : Nat → VideoOp) (apiKey : String)
    (fuel : Nat) (url : String) :
    generateVideoPitch ops apiKey fuel = some url →
    ∃ i, (ops i).done = true ∧ (∀ j, j < i → (ops j).done = false) ∧
      ∃ u, (ops i).uri = some u ∧ url = u ++ "&key=" ++ apiKey := by
  intro h
  unfold generateVideoPitch at h
  cases hp : pollVideo ops fuel 0 with
  | none => rw [hp] at h; exact absurd h (by simp)
  | some i =>
    rw [hp] at h
    dsimp only at h
    obtain ⟨-, hdone, hbefore⟩ := pollVideo_sound ops fuel 0 i hp
    cases hu : (ops i).uri with
    | none => rw [hu] at h; exact absurd h (by simp)
    | some u =>
      rw [hu] at h
      exact ⟨i, hdone, fun j hj => hbefore j (Nat.zero_le _) hj,
        u, hu, by simpa using h.symm⟩

/-- Witness for `generateVideoPitch_after_done` on a stream that completes at the
third poll. -/
theorem generateVideoPitch_after_done_witness :
    ∃ i, ((fun k => if k < 2 then (⟨false, none⟩ : VideoOp) else ⟨true, some "http://v"⟩) i).done = true ∧
      (∀ j, j < i →
        ((fun k => if k < 2 then (⟨false, none⟩ : VideoOp) else ⟨true, some "http://v"⟩) j).done = false) ∧
      ∃ u, ((fun k => if k < 2 then (⟨false, none⟩ : VideoOp) else ⟨true, some "http://v"⟩) i).uri = some u ∧
        "http://v&key=KEY" = u ++ "&key=" ++ "KEY" :=
  generateVideoPitch_after_done
    (fun k => if k < 2 then ⟨false, none⟩ else ⟨true, some "http://v"⟩) "KEY" 10
    "http://v&key=KEY" (by decide)

/-! ## Claim C9 — media updates change only the corresponding URL field -/

/-- Claim C9: completing a logo, audio or video generation updates only the
corresponding URL field of the current context — analysis, code, task, id,
timestamp and the other two media fields are untouched — the history entry with the
same id is rewritten to the identical updated context, every other entry and the
history order are unchanged, and a failed media operation changes nothing. -/
theorem updateContextWithMedia_frame (st : AppState) (c : GenerationContext)
    (t : MediaType) (url : String) :
    st.currentContext = some c →
    ((applyEvent st (.mediaSuccess t url)).currentContext = some (applyMedia t c url) ∧
     (applyMedia t c url).analysis = c.analysis ∧
     (applyMedia t c url).code = c.code ∧
     (applyMedia t c url).task = c.task ∧
     (applyMedia t c url).id = c.id ∧
     (applyMedia t c url).timestamp = c.timestamp ∧
     mediaField t (applyMedia t c url) = some url ∧
     (∀ t2, t2 ≠ t → mediaField t2 (applyMedia t c url) = mediaField t2 c) ∧
     (applyEvent st (.mediaSuccess t url)).history.length = st.history.length ∧
     (∀ (i : Nat) (h : GenerationContext), st.history[i]? = some h →
        (applyEvent st (.mediaSuccess t url)).history[i]? =
          some (if h.id = c.id then applyMedia t c url else h)) ∧
     applyEvent st .mediaFailure = st) := by
  intro hc
  have hid : (applyMedia t c url).id = c.id := by cases t <;> rfl
  refine ⟨?_, ?_, ?_, ?_, ?_, ?_, ?_, ?_, ?_, ?_, rfl⟩
  · simp [applyEvent, updateContextWithMedia, hc]
  · cases t <;> rfl
  · cases t <;> rfl
  · cases t <;> rfl
  · exact hid
  · cases t <;> rfl
  · cases t <;> rfl
  · intro t2 hne; cases t2 <;> cases t <;> first | rfl | exact absurd rfl hne
  · simp [applyEvent, updateContextWithMedia, hc]
  · intro i h hi
    simp only [applyEvent, updateContextWithMedia, hc]
    simp [List.getElem?_map, hi, hid]

/-- Witness for `updateContextWithMedia_frame`: a logo completion on the sample
state. -/
theorem updateContextWithMedia_frame_witness :
    (applyEvent sampleState (.mediaSuccess .logo "data:image/jpeg;base64,Zm9v")).currentContext =
      some (applyMedia .logo sampleContext "data:image/jpeg;base64,Zm9v") ∧
    (applyMedia .logo sampleContext "data:image/jpeg;base64,Zm9v").analysis = sampleContext.analysis ∧
    (applyMedia .logo sampleContext "data:image/jpeg;base64,Zm9v").code = sampleContext.code ∧
    (applyMedia .logo sampleContext "data:image/jpeg;base64,Zm9v").task = sampleContext.task ∧
    (applyMedia .logo sampleContext "data:image/jpeg;base64,Zm9v").id = sampleContext.id ∧
    (applyMedia .logo sampleContext "data:image/jpeg;base64,Zm9v").timestamp = sampleContext.timestamp ∧
    mediaField .logo (applyMedia .logo sampleContext "data:image/jpeg;base64,Zm9v") =
      some "data:image/jpeg;base64,Zm9v" ∧
    (∀ t2, t2 ≠ .logo →
      mediaField t2 (applyMedia .logo sampleContext "data:image/jpeg;base64,Zm9v") =
        mediaField t2 sampleContext) ∧
    (applyEvent sampleState (.mediaSuccess .logo "data:image/jpeg;base64,Zm9v")).history.length =
      sampleState.history.length ∧
    (∀ (i : Nat) (h : GenerationContext), sampleState.history[i]? = some h →
      (applyEvent sampleState (.mediaSuccess .logo "data:image/jpeg;base64,Zm9v")).history[i]? =
        some (if h.id = sampleContext.id then applyMedia .logo sampleContext "data:image/jpeg;base64,Zm9v" else h)) ∧
    applyEvent sampleState .mediaFailure = sampleState :=
  updateContextWithMedia_frame sampleState sampleContext .logo "data:image/jpeg;base64,Zm9v" rfl

/-! ## Claim C3 — empty import fails and preserves state; success replaces -/

/-- Claim C3: in an import whose download loop retrieves zero files, the pipeline
fails with the empty-import error and the previously held uploaded-file list is
returned unchanged; in an import retrieving at least one file, the retrieved list
replaces the previous one entirely. -/
theorem importAndSetFiles_empty_vs_replace (env : RepoEnv) (u : ParsedUrl)
    (prev retrieved : List UploadedFile) (repoPath defaultBranch : String)
    (treeData : List TreeNode) :
    parseRepoPath u = .ok repoPath →
    env.repoInfo = .ok defaultBranch →
    env.tree defaultBranch = .ok treeData →
    fetchLoop env.fetchFile (filesToFetch treeData) = .ok retrieved →
    (retrieved = [] → importAndSetFiles env u prev = (prev, some .emptyImport)) ∧
    (retrieved ≠ [] → importAndSetFiles env u prev = (retrieved, none)) := by
  intro hparse hinfo htree hloop
  constructor
  · intro hnil
    subst hnil
    simp [importAndSetFiles, runImport, hparse, hinfo, htree, hloop]
  · intro hne
    simp [importAndSetFiles, runImport, hparse, hinfo, htree, hloop,
      List.isEmpty_iff, hne]

/-- Witness for `importAndSetFiles_empty_vs_replace`: one run where every file
download fails (nothing retrieved, previous list kept) and one where a single file
is retrieved (previous list replaced). -/
theorem importAndSetFiles_empty_vs_replace_witness :
    importAndSetFiles
      ⟨.ok "main", fun _ => .ok [⟨"blob", "a.py", "u1"⟩], fun _ => .failed⟩
      ⟨"github.com", ["", "owner", "repo"]⟩ [⟨"old.txt", "old"⟩] =
      ([⟨"old.txt", "old"⟩], some .emptyImport) ∧
    importAndSetFiles
      ⟨.ok "main", fun _ => .ok [⟨"blob", "a.py", "u1"⟩], fun _ => .ok 1 "eA=="⟩
      ⟨"github.com", ["", "owner", "repo"]⟩ [⟨"old.txt", "old"⟩] =
      ([⟨"a.py", "x"⟩], none) :=
  ⟨(importAndSetFiles_empty_vs_replace
      ⟨.ok "main", fun _ => .ok [⟨"blob", "a.py", "u1"⟩], fun _ => .failed⟩
      ⟨"github.com", ["", "owner", "repo"]⟩ [⟨"old.txt", "old"⟩] []
      "owner/repo" "main" [⟨"blob", "a.py", "u1"⟩] rfl rfl rfl rfl).1 rfl,
   (importAndSetFiles_empty_vs_replace
      ⟨.ok "main", fun _ => .ok [⟨"blob", "a.py", "u1"⟩], fun _ => .ok 1 "eA=="⟩
      ⟨"github.com", ["", "owner", "repo"]⟩ [⟨"old.txt", "old"⟩] [⟨"a.py", "x"⟩]
      "owner/repo" "main" [⟨"blob", "a.py", "u1"⟩] rfl rfl rfl rfl).2 (by decide)⟩

/-! ## Claim C2 — refinement override versus style and history changes -/

/-- Claim C2, counterexample: with a pending refinement override, changing the
`PromptStyle` does not keep displaying the override — the clearing effect also
fires on style changes, so the formatter output is displayed instead. -/
theorem refinement_cleared_by_style_change :
    (applyEvent sampleState (.setStyle .compact)).refinedPrompt = none ∧
    displayedPrompt (applyEvent sampleState (.setStyle .compact)) ≠ "OVERRIDE" := by
  constructor
  · rfl
  · decide

/-- Claim C2, amended: while an override is present (and non-empty) it is what is
displayed, but only until the style or the context changes: switching the
`PromptStyle` clears the override and restores formatter-driven rendering, and
selecting a different history entry clears the override and renders that entry's
analysis, code blob and task through the current formatter. -/
theorem refinement_override_behaviour (st : AppState) (r : String)
    (c2 : GenerationContext) :
    st.refinedPrompt = some r → r ≠ "" →
    (displayedPrompt st = r ∧
     (∀ s, s ≠ st.promptStyle → ∀ c, st.currentContext = some c →
        (applyEvent st (.setStyle s)).refinedPrompt = none ∧
        displayedPrompt (applyEvent st (.setStyle s)) =
          formatPrompt s c.analysis c.code c.task) ∧
     (some c2 ≠ st.currentContext →
        (applyEvent st (.selectHistory c2)).currentContext = some c2 ∧
        (applyEvent st (.selectHistory c2)).refinedPrompt = none ∧
        displayedPrompt (applyEvent st (.selectHistory c2)) =
          formatPrompt st.promptStyle c2.analysis c2.code c2.task)) := by
  intro hr hne
  refine ⟨?_, ?_, ?_⟩
  · simp [displayedPrompt, hr, hne]
  · intro s hs c hc
    have hss : ¬ s = st.promptStyle := hs
    constructor
    · simp [applyEvent, if_neg hss]
    · simp [applyEvent, if_neg hss, displayedPrompt, hc]
  · intro hc2
    have hcc : ¬ st.currentContext = some c2 := fun h => hc2 h.symm
    refine ⟨?_, ?_, ?_⟩
    · simp [applyEvent, if_neg hcc]
    · simp [applyEvent, if_neg hcc]
    · simp [applyEvent, if_neg hcc, displayedPrompt]

/-- Witness for `refinement_override_behaviour` on the sample state. -/
theorem refinement_override_behaviour_witness :
    displayedPrompt sampleState = "OVERRIDE" ∧
    ((applyEvent sampleState (.setStyle .compact)).refinedPrompt = none ∧
      displayedPrompt (applyEvent sampleState (.setStyle .compact)) =
        formatPrompt .compact sampleContext.analysis sampleContext.code sampleContext.task) ∧
    ((applyEvent sampleState (.selectHistory sampleContext2)).currentContext = some sampleContext2 ∧
      (applyEvent sampleState (.selectHistory sampleContext2)).refinedPrompt = none ∧
      displayedPrompt (applyEvent sampleState (.selectHistory sampleContext2)) =
        formatPrompt sampleState.promptStyle sampleContext2.analysis sampleContext2.code sampleContext2.task) := by
  obtain ⟨h1, h2, h3⟩ :=
    refinement_override_behaviour sampleState "OVERRIDE" sampleContext2 rfl (by decide)
  exact ⟨h1, h2 .compact (by decide) sampleContext rfl, h3 (by decide)⟩

/-! ## Claim C5 — formatters are pure with no hidden state -/

/-- Style switches leave the context and a cleared override untouched. -/
theorem foldl_setStyle_preserves (styles : List PromptStyle) :
    ∀ st : AppState, ((styles.map AppEvent.setStyle).foldl applyEvent st).currentContext =
        st.currentContext ∧
      (st.refinedPrompt = none →
        ((styles.map AppEvent.setStyle).foldl applyEvent st).refinedPrompt = none) := by
  induction styles with
  | nil => intro st; exact ⟨rfl, fun h => h⟩
  | cons s rest ih =>
    intro st
    have hstep : (applyEvent st (.setStyle s)).currentContext = st.currentContext ∧
        (st.refinedPrompt = none → (applyEvent st (.setStyle s)).refinedPrompt = none) := by
      by_cases hs : s = st.promptStyle <;> simp [applyEvent, hs]
    obtain ⟨ih1, ih2⟩ := ih (applyEvent st (.setStyle s))
    refine ⟨?_, ?_⟩
    · simpa [List.foldl_cons, ih1] using hstep.1
    · intro h
      simpa [List.foldl_cons] using ih2 (hstep.2 h)

/-- Claim C5: with a fixed current context and no pending override, any sequence of
style switches followed by selecting style `s` displays exactly the pure formatter
output for `s` on that context's analysis, code and task — independent of the
switch history, byte-identical on re-selection — and the context (hence the
`AnalysisResult`) is left unmodified. -/
theorem formatters_pure_no_hidden_state (st : AppState) (c : GenerationContext)
    (styles : List PromptStyle) (s : PromptStyle) :
    st.currentContext = some c →
    st.refinedPrompt = none →
    ((applyEvent ((styles.map AppEvent.setStyle).foldl applyEvent st) (.setStyle s)).currentContext =
        some c ∧
     (applyEvent ((styles.map AppEvent.setStyle).foldl applyEvent st) (.setStyle s)).refinedPrompt =
        none ∧
     displayedPrompt (applyEvent ((styles.map AppEvent.setStyle).foldl applyEvent st) (.setStyle s)) =
        formatPrompt s c.analysis c.code c.task) := by
  intro hc hrn
  obtain ⟨hctx, href⟩ := foldl_setStyle_preserves styles st
  set st1 := (styles.map AppEvent.setStyle).foldl applyEvent st with hst1
  have hc1 : st1.currentContext = some c := by rw [hctx, hc]
  have hr1 : st1.refinedPrompt = none := href hrn
  by_cases hs : s = st1.promptStyle
  · have hstep : applyEvent st1 (.setStyle s) = st1 := by simp [applyEvent, hs]
    rw [hstep]
    exact ⟨hc1, hr1, by simp [displayedPrompt, hr1, hc1, hs]⟩
  · have hstep : applyEvent st1 (.setStyle s) =
        { st1 with promptStyle := s, refinedPrompt := none } := by simp [applyEvent, hs]
    rw [hstep]
    exact ⟨hc1, rfl, by simp [displayedPrompt, hc1]⟩

/-- Witness for `formatters_pure_no_hidden_state`: a concrete zig-zag of style
switches ending on `concise` renders the `concise` template of the sample context. -/
theorem formatters_pure_no_hidden_state_witness :
    ((applyEvent (([PromptStyle.compact, .base44, .concise, .friendly].map AppEvent.setStyle).foldl
        applyEvent { sampleState with refinedPrompt := none }) (.setStyle .concise)).currentContext =
      some sampleContext ∧
     (applyEvent (([PromptStyle.compact, .base44, .concise, .friendly].map AppEvent.setStyle).foldl
        applyEvent { sampleState with refinedPrompt := none }) (.setStyle .concise)).refinedPrompt =
      none ∧
     displayedPrompt (applyEvent (([PromptStyle.compact, .base44, .concise, .friendly].map AppEvent.setStyle).foldl
        applyEvent { sampleState with refinedPrompt := none }) (.setStyle .concise)) =
      formatPrompt .concise sampleContext.analysis sampleContext.code sampleContext.task) :=
  formatters_pure_no_hidden_state { sampleState with refinedPrompt := none }
    sampleContext [.compact, .base44, .concise, .friendly] .concise rfl rfl

/-! ## Claim C6 — blocked and oversized entries are skipped, not fatal -/

/-- Characterization of the sequential download loop: when no request is
rate-limited and every fetched, size-admissible blob decodes, the loop succeeds;
every returned file comes from a successfully fetched node within the size bound,
and every such node's file is returned. -/
theorem fetchLoop_characterized (fetch : String → FetchOutcome) :
    ∀ ns : List TreeNode,
      (∀ n, n ∈ ns → fetch n.url ≠ .status403) →
      (∀ n, n ∈ ns → ∀ size content, fetch n.url = .ok size content →
        size ≤ MAX_FILE_SIZE_BYTES → base64ToUtf8 content ≠ none) →
      ∃ files, fetchLoop fetch ns = .ok files ∧
        (∀ f, f ∈ files → ∃ n, n ∈ ns ∧ ∃ size content, fetch n.url = .ok size content ∧
          size ≤ MAX_FILE_SIZE_BYTES ∧ ∃ text, base64ToUtf8 content = some text ∧
          f = ⟨n.path, text⟩) ∧
        (∀ n, n ∈ ns → ∀ size content text, fetch n.url = .ok size content →
          size ≤ MAX_FILE_SIZE_BYTES → base64ToUtf8 content = some text →
          (⟨n.path, text⟩ : UploadedFile) ∈ files) := by
  intro ns
  induction ns with
  | nil =>
    intro _ _
    exact ⟨[], rfl, by simp, by simp⟩
  | cons node rest ih =>
    intro h403 hdec
    have h403r : ∀ n, n ∈ rest → fetch n.url ≠ .status403 :=
      fun n hn => h403 n (List.mem_cons_of_mem _ hn)
    have hdecr : ∀ n, n ∈ rest → ∀ size content, fetch n.url = .ok size content →
        size ≤ MAX_FILE_SIZE_BYTES → base64ToUtf8 content ≠ none :=
      fun n hn => hdec n (List.mem_cons_of_mem _ hn)
    obtain ⟨files, hloop, hchar, hcomplete⟩ := ih h403r hdecr
    cases hfn : fetch node.url with
    | status403 => exact absurd hfn (h403 node (List.mem_cons_self _ _))
    | failed =>
      refine ⟨files, ?_, ?_, ?_⟩
      · simp only [fetchLoop, hfn]
        exact hloop
      · intro f hf
        obtain ⟨n, hn, rest2⟩ := hchar f hf
        exact ⟨n, List.mem_cons_of_mem _ hn, rest2⟩
      · intro n hn size content text hfetch hsize hdecode
        rcases List.mem_cons.mp hn with rfl | hn2
        · rw [hfn] at hfetch
          exact absurd hfetch (by simp)
        · exact hcomplete n hn2 size content text hfetch hsize hdecode
    | ok size0 content0 =>
      by_cases hsz : size0 > MAX_FILE_SIZE_BYTES
      · refine ⟨files, ?_, ?_, ?_⟩
        · simp only [fetchLoop, hfn]
          rw [if_pos hsz]
          exact hloop
        · intro f hf
          obtain ⟨n, hn, rest2⟩ := hchar f hf
          exact ⟨n, List.mem_cons_of_mem _ hn, rest2⟩
        · intro n hn size content text hfetch hsize hdecode
          rcases List.mem_cons.mp hn with rfl | hn2
          · rw [hfn] at hfetch
            obtain ⟨rfl, rfl⟩ : size0 = size ∧ content0 = content := by
              simpa using hfetch
            exact absurd hsize (by omega)
          · exact hcomplete n hn2 size content text hfetch hsize hdecode
      · have hszle : size0 ≤ MAX_FILE_SIZE_BYTES := Nat.le_of_not_lt hsz
        have hdn : base64ToUtf8 content0 ≠ none :=
          hdec node (List.mem_cons_self _ _) size0 content0 hfn hszle
        cases hdc : base64ToUtf8 content0 with
        | none => exact absurd hdc hdn
        | some text0 =>
          refine ⟨⟨node.path, text0⟩ :: files, ?_, ?_, ?_⟩
          · simp only [fetchLoop, hfn]
            rw [if_neg hsz, hdc, hloop]
          · intro f hf
            rcases List.mem_cons.mp hf with rfl | hf2
            · exact ⟨node, List.mem_cons_self _ _, size0, content0, hfn, hszle,
                text0, hdc, rfl⟩
            · obtain ⟨n, hn, rest2⟩ := hchar f hf2
              exact ⟨n, List.mem_cons_of_mem _ hn, rest2⟩
          · intro n hn size content text hfetch hsize hdecode
            rcases List.mem_cons.mp hn with rfl | hn2
            · rw [hfn] at hfetch
              obtain ⟨rfl, rfl⟩ : size0 = size ∧ content0 = content := by
                simpa using hfetch
              rw [hdc] at hdecode
              obtain rfl : text0 = text := by simpa using hdecode
              exact List.mem_cons_self _ _
            · exact List.mem_cons_of_mem _
                (hcomplete n hn2 size content text hfetch hsize hdecode)

/-- Claim C6: every candidate the importer downloads is an unblocked, non-lockfile
blob (entries with a blocked extension such as `"exe"` never reach the loop), and
— absent rate limiting, with decodable contents — the loop completes without
aborting: every oversized blob is excluded from the result while every valid file
is still returned. -/
theorem import_excludes_blocked_and_oversized (treeData : List TreeNode)
    (fetch : String → FetchOutcome) :
    (∀ n, n ∈ filesToFetch treeData → n.type = "blob" ∧
      isBlockedExtension n.path = false ∧ isLockfilePath n.path = false) ∧
    ((∀ n, n ∈ filesToFetch treeData → fetch n.url ≠ .status403) →
     (∀ n, n ∈ filesToFetch treeData → ∀ size content, fetch n.url = .ok size content →
        size ≤ MAX_FILE_SIZE_BYTES → base64ToUtf8 content ≠ none) →
     ∃ files, fetchLoop fetch (filesToFetch treeData) = .ok files ∧
       (∀ f, f ∈ files → ∃ n, n ∈ filesToFetch treeData ∧
         ∃ size content, fetch n.url = .ok size content ∧
         size ≤ MAX_FILE_SIZE_BYTES ∧ ∃ text, base64ToUtf8 content = some text ∧
         f = ⟨n.path, text⟩) ∧
       (∀ n, n ∈ filesToFetch treeData → ∀ size content text,
         fetch n.url = .ok size content → size ≤ MAX_FILE_SIZE_BYTES →
         base64ToUtf8 content = some text →
         (⟨n.path, text⟩ : UploadedFile) ∈ files)) := by
  constructor
  · intro n hn
    have hn2 := List.take_subset 100 _ hn
    rw [List.mem_filter] at hn2
    obtain ⟨hn3, hq⟩ := hn2
    rw [List.mem_filter] at hn3
    obtain ⟨-, hp⟩ := hn3
    refine ⟨?_, ?_, ?_⟩
    · have := of_decide_eq_true hp
      exact this.1
    · have := of_decide_eq_true hp
      simpa using this.2
    · simpa using hq
  · exact fetchLoop_characterized fetch (filesToFetch treeData)

/-- Witness for `import_excludes_blocked_and_oversized` on the sample tree, whose
`v.exe` entry and lockfile never reach the loop while `a.py` is downloaded. -/
theorem import_excludes_blocked_and_oversized_witness :
    (∀ n, n ∈ filesToFetch sampleTree → n.type = "blob" ∧
      isBlockedExtension n.path = false ∧ isLockfilePath n.path = false) ∧
    (∃ files, fetchLoop sampleFetch (filesToFetch sampleTree) = .ok files ∧
      (∀ f, f ∈ files → ∃ n, n ∈ filesToFetch sampleTree ∧
        ∃ size content, sampleFetch n.url = .ok size content ∧
        size ≤ MAX_FILE_SIZE_BYTES ∧ ∃ text, base64ToUtf8 content = some text ∧
        f = ⟨n.path, text⟩) ∧
      (∀ n, n ∈ filesToFetch sampleTree → ∀ size content text,
        sampleFetch n.url = .ok size content → size ≤ MAX_FILE_SIZE_BYTES →
        base64ToUtf8 content = some text →
        (⟨n.path, text⟩ : UploadedFile) ∈ files)) := by
  obtain ⟨h1, h2⟩ := import_excludes_blocked_and_oversized sampleTree sampleFetch
  refine ⟨h1, h2 ?_ ?_⟩
  · intro n hn h
    exact absurd h (by simp [sampleFetch])
  · intro n hn size content hfe hsz
    obtain ⟨rfl, rfl⟩ : 1 = size ∧ "eA==" = content := by
      simpa [sampleFetch] using hfe
    decide

/-! ## Claim C4 — blob construction and reassembly -/

/-- Fuel irrelevance of the splitter: any fuel at least the length of the scanned
list gives the same result. -/
theorem splitOnFuel_congr (c0 : Char) (cs : List Char) :
    ∀ fuel1 fuel2 s acc, s.length ≤ fuel1 → s.length ≤ fuel2 →
      splitOnFuel c0 cs fuel1 s acc = splitOnFuel c0 cs fuel2 s acc := by
  intro fuel1
  induction fuel1 with
  | zero =>
    intro fuel2 s acc h1 _
    have hs : s = [] := List.length_eq_zero.mp (Nat.le_zero.mp h1)
    subst hs
    cases fuel2 <;> simp [splitOnFuel]
  | succ fuel1 ih =>
    intro fuel2 s acc h1 h2
    cases s with
    | nil => cases fuel2 <;> simp [splitOnFuel]
    | cons x xs =>
      cases fuel2 with
      | zero => simp at h2
      | succ fuel2 =>
        simp only [splitOnFuel]
        by_cases hp : (c0 :: cs).isPrefixOf (x :: xs) = true
        · rw [if_pos hp, if_pos hp,
            ih fuel2 (xs.drop cs.length) [] (by simp at h1 ⊢; omega) (by simp at h2 ⊢; omega)]
        · rw [if_neg hp, if_neg hp]
          exact ih fuel2 xs (x :: acc) (by simp at h1 ⊢; omega) (by simp at h2 ⊢; omega)

/-- When the separator occurs nowhere in the scanned list, the splitter returns a
single piece. -/
theorem splitOnFuel_no_occurrence (c0 : Char) (cs : List Char) :
    ∀ fuel s acc, s.length ≤ fuel →
      (∀ j, ¬ (c0 :: cs) <+: s.drop j) →
      splitOnFuel c0 cs fuel s acc = [acc.reverse ++ s] := by
  intro fuel
  induction fuel with
  | zero => intro s acc _ _; rfl
  | succ fuel ih =>
    intro s acc h1 hocc
    cases s with
    | nil => simp [splitOnFuel]
    | cons x xs =>
      simp only [splitOnFuel]
      rw [if_neg (fun hp => hocc 0 (by simpa using List.isPrefixOf_iff_prefix.mp hp)),
        ih xs (x :: acc) (by simp at h1 ⊢; omega) (fun j => by simpa using hocc (j + 1))]
      simp

/-- Cutting at an explicit boundary: when no separator occurrence starts inside
`u`, the splitter emits `u` and continues after the separator. -/
theorem splitOnFuel_boundary (c0 : Char) (cs : List Char) :
    ∀ u fuel v acc, (u ++ (c0 :: cs) ++ v).length ≤ fuel →
      (∀ j, j < u.length → ¬ (c0 :: cs) <+: ((u ++ (c0 :: cs) ++ v).drop j)) →
      splitOnFuel c0 cs fuel (u ++ (c0 :: cs) ++ v) acc =
        (acc.reverse ++ u) :: splitOnFuel c0 cs v.length v [] := by
  intro u
  induction u with
  | nil =>
    intro fuel v acc h1 _
    cases fuel with
    | zero => simp [List.length_append] at h1
    | succ fuel =>
      simp only [List.nil_append, List.cons_append, splitOnFuel]
      rw [if_pos (List.isPrefixOf_iff_prefix.mpr ⟨v, by simp⟩),
        show List.drop cs.length (cs.append v) = v from List.drop_left cs v,
        splitOnFuel_congr c0 cs fuel v.length v [] (by simp [List.length_append] at h1; omega)
          (Nat.le_refl _)]
      simp
  | cons x u2 ihu =>
    intro fuel v acc h1 hocc
    cases fuel with
    | zero => simp [List.length_append] at h1
    | succ fuel =>
      have hshape : ((x :: u2) ++ (c0 :: cs) ++ v) = x :: (u2 ++ (c0 :: cs) ++ v) := by simp
      rw [hshape]
      simp only [splitOnFuel]
      rw [if_neg (fun hp => hocc 0 (by simp)
          (by simpa [hshape] using List.isPrefixOf_iff_prefix.mp hp)),
        ihu fuel v (x :: acc) (by simp [List.length_append] at h1 ⊢; omega)
          (fun j hj => by simpa [hshape] using hocc (j + 1) (by simpa using Nat.succ_lt_succ hj))]
      simp

/-- A prefix of an append that fits inside the first part is a prefix of it. -/
theorem prefix_shrink {α : Type} {a t w : List α} (h : a <+: t ++ w)
    (hl : a.length ≤ t.length) : a <+: t := by
  rw [List.prefix_iff_eq_take] at h ⊢
  exact h.trans (List.take_append_of_le_length hl)

/-- A separator occurrence starting inside a chunk lies inside the window
`chunk ++ separator`, whatever follows. -/
theorem occurrence_window {sep p w : List Char} {j : Nat} (hj : j ≤ p.length)
    (h : sep <+: ((p ++ sep ++ w).drop j)) : sep <+: ((p ++ sep).drop j) := by
  have hjle : j ≤ (p ++ sep).length := by simp; omega
  rw [List.drop_append_of_le_length hjle] at h
  exact prefix_shrink h (by simp [List.length_drop]; omega)

/-- A good chunk contains no separator occurrence at all. -/
theorem goodChunk_no_occurrence {sep p : List Char} (hsep : sep ≠ [])
    (hg : goodChunk sep p) : ∀ j, ¬ sep <+: p.drop j := by
  intro j h
  by_cases hj : j < p.length
  · exact hg j hj ((List.drop_append_of_le_length (Nat.le_of_lt hj)) ▸
      h.trans (List.prefix_append _ sep))
  · rw [List.drop_eq_nil_of_le (Nat.le_of_not_lt hj)] at h
    exact hsep (List.prefix_nil.mp h)

/-- A good chunk admits no separator occurrence starting inside it, whatever
follows the separator. -/
theorem goodChunk_window {sep p w : List Char} (hg : goodChunk sep p) :
    ∀ j, j < p.length → ¬ sep <+: ((p ++ sep ++ w).drop j) :=
  fun j hj h => hg j hj (occurrence_window (Nat.le_of_lt hj) h)

/-- Splitting inverts joining for a non-empty list of good chunks. -/
theorem splitSep_joinSep (sep : List Char) (hsep : sep ≠ []) :
    ∀ parts : List (List Char), parts ≠ [] →
      (∀ p, p ∈ parts → goodChunk sep p) →
      splitSep sep (joinSep sep parts) = parts := by
  cases sep with
  | nil => exact absurd rfl hsep
  | cons c0 cs =>
    intro parts
    induction parts with
    | nil => intro h; exact absurd rfl h
    | cons p ps ihp =>
      intro _ hgood
      cases ps with
      | nil =>
        show splitOnFuel c0 cs p.length p [] = [p]
        rw [splitOnFuel_no_occurrence c0 cs p.length p [] (Nat.le_refl _)
          (goodChunk_no_occurrence (by simp) (hgood p (List.mem_cons_self _ _)))]
        simp
      | cons q qs =>
        show splitOnFuel c0 cs (p ++ (c0 :: cs) ++ joinSep (c0 :: cs) (q :: qs)).length
          (p ++ (c0 :: cs) ++ joinSep (c0 :: cs) (q :: qs)) [] = p :: (q :: qs)
        rw [splitOnFuel_boundary c0 cs p _ (joinSep (c0 :: cs) (q :: qs)) [] (Nat.le_refl _)
          (goodChunk_window (hgood p (List.mem_cons_self _ _)))]
        have hrest : splitOnFuel c0 cs (joinSep (c0 :: cs) (q :: qs)).length
            (joinSep (c0 :: cs) (q :: qs)) [] = q :: qs :=
          ihp (by simp) (fun r hr => hgood r (List.mem_cons_of_mem _ hr))
        rw [hrest]
        simp

/-- Character-list form of one blob chunk. -/
theorem chunkS_data (f : UploadedFile) :
    ("// FILE: " ++ f.path ++ "\n\n" ++ f.content).data = chunkL f := by
  have h2 : ("\n\n" : String).data = ['\n', '\n'] := rfl
  simp [chunkL, markerL, String.data_append, h2, List.append_assoc]

/-- The blob is the separator-join of the chunk lists. -/
theorem combinedCode_data :
    ∀ files : List UploadedFile, (combinedCode files).data = joinSep sepL (files.map chunkL) := by
  intro files
  induction files with
  | nil => rfl
  | cons f fs ih =>
    cases fs with
    | nil => simpa [combinedCode, jsJoin, joinSep] using chunkS_data f
    | cons g gs =>
      calc (combinedCode (f :: g :: gs)).data
          = ("// FILE: " ++ f.path ++ "\n\n" ++ f.content).data ++ sepL ++
              (combinedCode (g :: gs)).data := by
            simp [combinedCode, jsJoin, String.data_append, sepL, List.append_assoc]
        _ = chunkL f ++ sepL ++ joinSep sepL ((g :: gs).map chunkL) := by
            rw [chunkS_data, ih]
        _ = joinSep sepL ((f :: g :: gs).map chunkL) := by
            simp [joinSep]

/-- Locating the path/content boundary in a chunk whose path has no newline. -/
theorem findNl2_of_no_newline :
    ∀ (p rest : List Char), '\n' ∉ p →
      findNl2 (p ++ '\n' :: '\n' :: rest) = some (p, rest) := by
  intro p
  induction p with
  | nil => intro rest _; simp [findNl2]
  | cons c p2 ih =>
    intro rest hn
    have hc : c ≠ '\n' := fun h => hn (h ▸ List.mem_cons_self c p2)
    obtain ⟨t0, t1, ht⟩ : ∃ t0 t1, p2 ++ '\n' :: '\n' :: rest = t0 :: t1 := by
      cases p2 with
      | nil => exact ⟨'\n', '\n' :: rest, rfl⟩
      | cons a b => exact ⟨a, b ++ '\n' :: '\n' :: rest, rfl⟩
    show findNl2 (c :: (p2 ++ '\n' :: '\n' :: rest)) = some (c :: p2, rest)
    rw [ht]
    simp only [findNl2]
    rw [if_neg (by rintro ⟨h1, -⟩; exact hc h1), ← ht,
      ih rest (fun h => hn (List.mem_cons_of_mem _ h))]
    rfl

/-- A chunk built from a newline-free path parses back to its file. -/
theorem parseChunk_chunkL (f : UploadedFile) (hn : '\n' ∉ f.path.data) :
    parseChunk (chunkL f) = some f := by
  have hshape : chunkL f = markerL ++ (f.path.data ++ '\n' :: '\n' :: f.content.data) := by
    simp [chunkL, List.append_assoc]
  unfold parseChunk
  rw [if_pos (List.isPrefixOf_iff_prefix.mpr ⟨_, hshape.symm⟩), hshape, List.drop_left,
    show f.path.data ++ '\n' :: '\n' :: f.content.data =
      f.path.data ++ '\n' :: '\n' :: f.content.data from rfl,
    findNl2_of_no_newline f.path.data f.content.data hn]

/-- Parsing distributes over the chunk list. -/
theorem mapM_parseChunk :
    ∀ files : List UploadedFile, (∀ f, f ∈ files → '\n' ∉ f.path.data) →
      (files.map chunkL).mapM parseChunk = some files := by
  intro files
  induction files with
  | nil => intro _; rfl
  | cons f fs ih =>
    intro hn
    simp only [List.map_cons, List.mapM_cons,
      parseChunk_chunkL f (hn f (List.mem_cons_self _ _)),
      ih (fun g hg => hn g (List.mem_cons_of_mem _ hg))]
    rfl

/-- Claim C4, counterexample: for a file whose content itself contains the
separator and the marker, the blob does not round-trip — splitting it back yields
two different files, and the file's own path marker occurs a second time inside
the blob. -/
theorem combinedCode_roundTrip_cex :
    splitBlob (combinedCode [⟨"a.py", "x\n\n---\n\n// FILE: b.py\n\ny"⟩]) =
      some [⟨"a.py", "x"⟩, ⟨"b.py", "y"⟩] ∧
    splitBlob (combinedCode [⟨"a.py", "x\n\n---\n\n// FILE: b.py\n\ny"⟩]) ≠
      some [⟨"a.py", "x\n\n---\n\n// FILE: b.py\n\ny"⟩] := by
  constructor
  · decide
  · decide

/-- Claim C4, amended: for a non-empty file list whose paths contain no newline
and whose chunks contain no stray occurrence of the separator pattern (in
particular, for contents free of the marker and separator strings), the blob
contains the files in input-list order and splitting it at the separators recovers
exactly the original list of (path, content) pairs. -/
theorem combinedCode_roundTrip (files : List UploadedFile) :
    files ≠ [] → (∀ f, f ∈ files → safeFile f) →
    splitBlob (combinedCode files) = some files := by
  intro hne hsafe
  unfold splitBlob
  rw [combinedCode_data,
    splitSep_joinSep sepL (by decide) (files.map chunkL) (by simpa using hne)
      (by
        intro p hp
        obtain ⟨f, hf, rfl⟩ := List.mem_map.mp hp
        exact (hsafe f hf).2)]
  exact mapM_parseChunk files (fun f hf => (hsafe f hf).1)

/-- Witness for `combinedCode_roundTrip` on two ordinary source files. -/
theorem combinedCode_roundTrip_witness :
    splitBlob (combinedCode [⟨"a.py", "print(1)"⟩, ⟨"b.txt", "hi\n\nthere"⟩]) =
      some [⟨"a.py", "print(1)"⟩, ⟨"b.txt", "hi\n\nthere"⟩] :=
  combinedCode_roundTrip [⟨"a.py", "print(1)"⟩, ⟨"b.txt", "hi\n\nthere"⟩]
    (by decide) (by decide)

/-! ## Claim C10 — `base64ToUtf8` inverts UTF-8 + base64 encoding -/

/-- Table lookup inverts table indexing for every 6-bit value. -/
theorem b64Val_b64Char_fin : ∀ v : Fin 64, b64Val (b64Char v.val) = some v.val := by
  decide

/-- Table lookup inverts table indexing. -/
theorem b64Val_b64Char (v : Nat) (hv : v < 64) : b64Val (b64Char v) = some v :=
  b64Val_b64Char_fin ⟨v, hv⟩

/-- No alphabet character is the padding character. -/
theorem b64Char_ne_pad_fin : ∀ v : Fin 64, b64Char v.val ≠ '=' := by
  decide

/-- No alphabet character is the padding character. -/
theorem b64Char_ne_pad (v : Nat) (hv : v < 64) : b64Char v ≠ '=' :=
  b64Char_ne_pad_fin ⟨v, hv⟩

/-- No character the encoder emits is ASCII whitespace. -/
theorem isAsciiWs_b64Char_fin : ∀ v : Fin 64, isAsciiWs (b64Char v.val) = false := by
  decide

/-- No character the encoder can produce is ASCII whitespace, the out-of-range
default `'A'` included. -/
theorem isAsciiWs_b64Char (v : Nat) : isAsciiWs (b64Char v) = false := by
  by_cases hv : v < 64
  · exact isAsciiWs_b64Char_fin ⟨v, hv⟩
  · have hlen : b64Alphabet.length ≤ v := by
      have : b64Alphabet.length = 64 := by decide
      omega
    simp [b64Char, List.getD_eq_getElem?_getD, List.getElem?_eq_none hlen, isAsciiWs]

/-- The padding character is not ASCII whitespace. -/
theorem isAsciiWs_pad : isAsciiWs '=' = false := by decide

/-- The whitespace strip of forgiving base64 leaves encoder output unchanged. -/
theorem filter_ws_b64EncodeN : ∀ l : List Nat,
    (b64EncodeN l).filter (fun c => !isAsciiWs c) = b64EncodeN l
  | [] => rfl
  | [a] => by
    simp [b64EncodeN, isAsciiWs_b64Char, isAsciiWs_pad]
  | [a, b] => by
    simp [b64EncodeN, isAsciiWs_b64Char, isAsciiWs_pad]
  | a :: b :: d :: rest => by
    simp [b64EncodeN, isAsciiWs_b64Char, filter_ws_b64EncodeN rest]

/-- Base64 decoding inverts base64 encoding on byte lists. -/
theorem b64DecodeN_b64EncodeN : ∀ l : List Nat, (∀ b, b ∈ l → b < 256) →
    b64DecodeN (b64EncodeN l) = some l
  | [], _ => rfl
  | [a], h => by
    have ha : a < 256 := h a (by simp)
    simp only [b64EncodeN, b64DecodeN]
    rw [if_pos (by simp), b64Val_b64Char (a / 4) (by omega),
      b64Val_b64Char (a % 4 * 16) (by omega)]
    simp only [Option.some.injEq, List.cons.injEq, and_true]
    omega
  | [a, b], h => by
    have ha : a < 256 := h a (by simp)
    have hb : b < 256 := h b (by simp)
    simp only [b64EncodeN, b64DecodeN]
    rw [if_neg (fun hcon => b64Char_ne_pad (b % 16 * 4) (by omega) hcon.1),
      if_pos (by simp), b64Val_b64Char (a / 4) (by omega),
      b64Val_b64Char (a % 4 * 16 + b / 16) (by omega),
      b64Val_b64Char (b % 16 * 4) (by omega)]
    simp only [Option.some.injEq, List.cons.injEq, and_true]
    constructor
    · omega
    · omega
  | a :: b :: d :: rest, h => by
    have ha : a < 256 := h a (by simp)
    have hb : b < 256 := h b (by simp)
    have hd : d < 256 := h d (by simp)
    have hrest := b64DecodeN_b64EncodeN rest (fun x hx => h x (by simp [hx]))
    simp only [b64EncodeN, b64DecodeN]
    rw [if_neg (fun hcon => b64Char_ne_pad (b % 16 * 4 + d / 64) (by omega) hcon.1),
      if_neg (fun hcon => b64Char_ne_pad (d % 64) (by omega) hcon.1),
      b64Val_b64Char (a / 4) (by omega),
      b64Val_b64Char (a % 4 * 16 + b / 16) (by omega),
      b64Val_b64Char (b % 16 * 4 + d / 64) (by omega),
      b64Val_b64Char (d % 64) (by omega), hrest]
    simp only [Option.map_some', Option.some.injEq, List.cons.injEq, and_true]
    refine ⟨by omega, by omega, by omega⟩

/-- Valid scalar-value ranges of a `Char`. -/
theorem char_toNat_valid (c : Char) :
    c.toNat < 0xD800 ∨ (0xDFFF < c.toNat ∧ c.toNat < 0x110000) := c.valid

/-- Every byte of an encoded scalar is below 256. -/
theorem utf8EncodeCharN_lt (c : Char) : ∀ b, b ∈ utf8EncodeCharN c → b < 256 := by
  intro b hb
  have hlt : c.toNat < 0x110000 := by
    rcases char_toNat_valid c with h | ⟨-, h⟩ <;> omega
  simp only [utf8EncodeCharN] at hb
  by_cases h1 : c.toNat < 0x80
  · rw [if_pos h1] at hb; simp at hb; omega
  · rw [if_neg h1] at hb
    by_cases h2 : c.toNat < 0x800
    · rw [if_pos h2] at hb; simp at hb; rcases hb with rfl | rfl <;> omega
    · rw [if_neg h2] at hb
      by_cases h3 : c.toNat < 0x10000
      · rw [if_pos h3] at hb; simp at hb; rcases hb with rfl | rfl | rfl <;> omega
      · rw [if_neg h3] at hb; simp at hb; rcases hb with rfl | rfl | rfl | rfl <;> omega

/-- The remainder a decode step returns is no longer than its input. -/
theorem utf8Step_length (b0 : Nat) (rest : List Nat) (c : Char) (rem : List Nat)
    (h : utf8Step b0 rest = some (c, rem)) : rem.length ≤ rest.length := by
  unfold utf8Step at h
  dsimp only at h
  repeat' split at h
  all_goals simp at h
  all_goals obtain ⟨-, hrem⟩ := h
  all_goals subst hrem
  all_goals simp [List.length_drop]

/-- Fuel irrelevance of the decode loop. -/
theorem utf8DecodeLoop_congr :
    ∀ fuel1 fuel2 l, l.length ≤ fuel1 → l.length ≤ fuel2 →
      utf8DecodeLoop fuel1 l = utf8DecodeLoop fuel2 l := by
  intro fuel1
  induction fuel1 with
  | zero =>
    intro fuel2 l h1 _
    have hl : l = [] := List.length_eq_zero.mp (Nat.le_zero.mp h1)
    subst hl
    cases fuel2 <;> rfl
  | succ fuel1 ih =>
    intro fuel2 l h1 h2
    cases l with
    | nil => cases fuel2 <;> rfl
    | cons b0 rest =>
      cases fuel2 with
      | zero => simp at h2
      | succ fuel2 =>
        simp only [utf8DecodeLoop]
        cases hs : utf8Step b0 rest with
        | none => rfl
        | some cr =>
          have hlen := utf8Step_length b0 rest cr.1 cr.2 (by rw [hs])
          dsimp only
          rw [ih fuel2 cr.2 (by simp at h1; omega) (by simp at h2; omega)]

/-- One decode step consumes exactly one encoded scalar. -/
theorem utf8Step_encode (c : Char) (rest : List Nat) :
    ∃ b0 btail, utf8EncodeCharN c = b0 :: btail ∧
      utf8Step b0 (btail ++ rest) = some (c, rest) := by
  have hlt : c.toNat < 0x110000 := by
    rcases char_toNat_valid c with h | ⟨-, h⟩ <;> omega
  have hvv : c.toNat < 0xD800 ∨ 0xDFFF < c.toNat := by
    rcases char_toNat_valid c with h | ⟨h, -⟩
    · exact Or.inl h
    · exact Or.inr h
  by_cases h1 : c.toNat < 0x80
  · refine ⟨c.toNat, [], by simp only [utf8EncodeCharN, if_pos h1], ?_⟩
    simp only [List.nil_append, utf8Step]
    rw [if_pos h1, Char.ofNat_toNat]
  · by_cases h2 : c.toNat < 0x800
    · refine ⟨0xC0 + c.toNat / 64, [0x80 + c.toNat % 64],
        by simp only [utf8EncodeCharN, if_neg h1, if_pos h2], ?_⟩
      simp only [List.cons_append, List.nil_append, utf8Step, List.getD_cons_zero,
        List.drop_succ_cons, List.drop_zero]
      rw [if_neg (by omega), if_neg (by omega), if_pos (by omega),
        show (0xC0 + c.toNat / 64 - 0xC0) * 64 + (0x80 + c.toNat % 64 - 0x80) = c.toNat from
          by omega, Char.ofNat_toNat, if_pos (by omega)]
    · by_cases h3 : c.toNat < 0x10000
      · refine ⟨0xE0 + c.toNat / 4096, [0x80 + c.toNat / 64 % 64, 0x80 + c.toNat % 64],
          by simp only [utf8EncodeCharN, if_neg h1, if_neg h2, if_pos h3], ?_⟩
        simp only [List.cons_append, List.nil_append, utf8Step, List.getD_cons_zero,
          List.getD_cons_succ, List.drop_succ_cons, List.drop_zero]
        rw [if_neg (by omega), if_neg (by omega), if_neg (by omega), if_pos (by omega),
          if_pos (by omega),
          show (0xE0 + c.toNat / 4096 - 0xE0) * 4096 + (0x80 + c.toNat / 64 % 64 - 0x80) * 64 +
            (0x80 + c.toNat % 64 - 0x80) = c.toNat from by omega,
          if_pos (show 0x800 ≤ c.toNat ∧ (c.toNat < 0xD800 ∨ 0xDFFF < c.toNat) from
            ⟨by omega, hvv⟩),
          Char.ofNat_toNat]
      · refine ⟨0xF0 + c.toNat / 0x40000,
          [0x80 + c.toNat / 4096 % 64, 0x80 + c.toNat / 64 % 64, 0x80 + c.toNat % 64],
          by simp only [utf8EncodeCharN, if_neg h1, if_neg h2, if_neg h3], ?_⟩
        simp only [List.cons_append, List.nil_append, utf8Step, List.getD_cons_zero,
          List.getD_cons_succ, List.drop_succ_cons, List.drop_zero]
        rw [if_neg (by omega), if_neg (by omega), if_neg (by omega), if_neg (by omega),
          if_pos (by omega), if_pos (by omega),
          show (0xF0 + c.toNat / 0x40000 - 0xF0) * 0x40000 +
            (0x80 + c.toNat / 4096 % 64 - 0x80) * 4096 +
            (0x80 + c.toNat / 64 % 64 - 0x80) * 64 + (0x80 + c.toNat % 64 - 0x80) = c.toNat from
            by omega,
          if_pos (show 0x10000 ≤ c.toNat ∧ c.toNat < 0x110000 from ⟨by omega, hlt⟩),
          Char.ofNat_toNat]

/-- Decoding consumes one encoded scalar and emits its character. -/
theorem utf8DecodeN_encodeChar (c : Char) (rest : List Nat) :
    utf8DecodeN (utf8EncodeCharN c ++ rest) =
      (utf8DecodeN rest).map (fun cs => c :: cs) := by
  obtain ⟨b0, btail, he, hs⟩ := utf8Step_encode c rest
  unfold utf8DecodeN
  rw [he]
  simp only [List.cons_append, List.append_eq, List.length_cons, utf8DecodeLoop, hs]
  rw [utf8DecodeLoop_congr (btail ++ rest).length rest.length rest
    (by simp [List.length_append]) (Nat.le_refl _)]

/-- Decoding inverts encoding on whole character lists. -/
theorem utf8DecodeN_utf8Encode : ∀ cs : List Char,
    utf8DecodeN ((cs.map utf8EncodeCharN).flatten) = some cs := by
  intro cs
  induction cs with
  | nil => rfl
  | cons c cs ih =>
    rw [List.map_cons, List.flatten_cons, utf8DecodeN_encodeChar, ih]
    rfl

/-- Claim C10: `base64ToUtf8` is a left inverse of UTF-8 encoding followed by
base64 encoding — for every string, decoding the padded base64 encoding of its
UTF-8 byte sequence returns the string itself, so base64-delivered repository file
contents are reconstructed exactly. -/
theorem base64ToUtf8_leftInverse (s : String) :
    base64ToUtf8 (String.mk (b64EncodeN (utf8Encode s))) = some s := by
  have hbytes : ∀ b, b ∈ utf8Encode s → b < 256 := by
    intro b hb
    unfold utf8Encode at hb
    obtain ⟨l, hl, hbl⟩ := List.mem_flatten.mp hb
    obtain ⟨c, -, rfl⟩ := List.mem_map.mp hl
    exact utf8EncodeCharN_lt c b hbl
  unfold base64ToUtf8 jsAtob
  show (Option.bind (b64DecodeN ((b64EncodeN (utf8Encode s)).filter fun c => !isAsciiWs c))
    utf8DecodeN).map String.mk = some s
  rw [filter_ws_b64EncodeN, b64DecodeN_b64EncodeN (utf8Encode s) hbytes]
  show (utf8DecodeN (utf8Encode s)).map String.mk = some s
  unfold utf8Encode
  rw [utf8DecodeN_utf8Encode s.data]
  rfl

end PromptReverse
